import Mathlib

/-!
Verification of the ScreenInversionWindows repository.

The repository has two variants of the color-matrix / rectangle-persistence
logic:

* `src/cpp/Windowed/ScreenInversion.cpp` (the enhanced variant, abbreviated
  SI below): its own `LoadSavedRectangles` / `SaveSavedRectangles` using
  lenient `atoi` parsing, a 4-entry brightness table, and a grayscale block
  whose row `i` is constant `w i`.
* `src/cpp/Windowed/MagnifierSample.cpp` (abbreviated MS below): a 5-entry
  brightness table and a grayscale block whose row `i` is
  `(0.299, 0.587, 0.114)`.
* `src/cpp/Windowed/SavedRectanglesManager.{h,cpp}`: a strict
  (`strtol`-validated) rectangle store with `Load` / `Save` /
  `SavePreservingExisting`.

Text files are modelled as lists of lines, each line a `List Char` (the
character stream between two newline characters, as delivered by
`std::getline`).  C `long` / `int` values are modelled as `Int`; the float
matrix entries are modelled as exact rationals.
-/

/-! ## Character classes -/

/-- Characters of the trim set `" \t"` used by the `erase`-based trimming in
all three parsers. -/
def isSpaceTab (c : Char) : Bool := c = ' ' ∨ c = '\t'

/-- The C `isspace` class skipped by `strtol` / `atoi` before a number. -/
def isSpaceC (c : Char) : Bool :=
  c = ' ' ∨ c = '\t' ∨ c = '\n' ∨ c = '\x0b' ∨ c = '\x0c' ∨ c = '\r'

/-- Decimal digit test, as used by `strtol` in base 10. -/
def isDigitC (c : Char) : Bool := 48 ≤ c.toNat ∧ c.toNat ≤ 57

/-- Numeric value of a decimal digit character. -/
def digitVal (c : Char) : Nat := c.toNat - 48

/-- The decimal digit character for `n < 10` (as produced by the
`ostream <<` integer formatting). -/
def digitChar (n : Nat) : Char :=
  if n = 0 then '0' else if n = 1 then '1' else if n = 2 then '2'
  else if n = 3 then '3' else if n = 4 then '4' else if n = 5 then '5'
  else if n = 6 then '6' else if n = 7 then '7' else if n = 8 then '8'
  else '9'

theorem digitVal_digitChar {n : Nat} (h : n < 10) : digitVal (digitChar n) = n := by
  interval_cases n <;> decide

theorem isDigitC_digitChar {n : Nat} (h : n < 10) : isDigitC (digitChar n) = true := by
  interval_cases n <;> decide

theorem isDigitC_char_facts {c : Char} (h : isDigitC c = true) :
    c ≠ ',' ∧ c ≠ '=' ∧ c ≠ '-' ∧ c ≠ '+' ∧ c ≠ '#' ∧ c ≠ ';' ∧
    isSpaceC c = false ∧ isSpaceTab c = false := by
  refine ⟨fun hc => ?_, fun hc => ?_, fun hc => ?_, fun hc => ?_, fun hc => ?_,
    fun hc => ?_, ?_, ?_⟩
  · subst hc; exact absurd h (by decide)
  · subst hc; exact absurd h (by decide)
  · subst hc; exact absurd h (by decide)
  · subst hc; exact absurd h (by decide)
  · subst hc; exact absurd h (by decide)
  · subst hc; exact absurd h (by decide)
  · cases hsp : isSpaceC c
    · rfl
    · simp only [isSpaceC, decide_eq_true_eq] at hsp
      rcases hsp with hc | hc | hc | hc | hc | hc <;> (subst hc; exact absurd h (by decide))
  · cases hsp : isSpaceTab c
    · rfl
    · simp only [isSpaceTab, decide_eq_true_eq] at hsp
      rcases hsp with hc | hc <;> (subst hc; exact absurd h (by decide))

/-! ## Decimal rendering (ostream `<<` on integers) -/

/-- Little-endian list of decimal digit values of `n` (empty for 0). -/
def natDigitsRev : Nat → List Nat
  | 0 => []
  | n + 1 => ((n + 1) % 10) :: natDigitsRev ((n + 1) / 10)
decreasing_by exact Nat.div_lt_self (Nat.succ_pos n) (by omega)

/-- Value of a little-endian digit list. -/
def valRev : List Nat → Nat
  | [] => 0
  | d :: ds => d + 10 * valRev ds

theorem valRev_natDigitsRev : ∀ n, valRev (natDigitsRev n) = n := by
  intro n
  induction n using Nat.strong_induction_on with
  | _ n ih =>
    match n with
    | 0 => simp [natDigitsRev, valRev]
    | m + 1 =>
      rw [natDigitsRev, valRev, ih ((m + 1) / 10) (Nat.div_lt_self (Nat.succ_pos m) (by omega))]
      omega

theorem natDigitsRev_lt_ten : ∀ n, ∀ d ∈ natDigitsRev n, d < 10 := by
  intro n
  induction n using Nat.strong_induction_on with
  | _ n ih =>
    match n with
    | 0 => intro d hd; simp [natDigitsRev] at hd
    | m + 1 =>
      intro d hd
      rw [natDigitsRev] at hd
      rcases List.mem_cons.mp hd with h | h
      · subst h; exact Nat.mod_lt _ (by omega)
      · exact ih ((m + 1) / 10) (Nat.div_lt_self (Nat.succ_pos m) (by omega)) d h

/-- Decimal rendering of a natural number, most significant digit first. -/
def natToDec (n : Nat) : List Char :=
  if n = 0 then ['0'] else ((natDigitsRev n).map digitChar).reverse

/-- Decimal rendering of an integer, as `ostream <<` prints a `long` or
`int`: a minus sign for negative values, then the digits. -/
def intToDec (i : Int) : List Char :=
  if i < 0 then '-' :: natToDec (-i).toNat else natToDec i.toNat

theorem natToDec_ne_nil (n : Nat) : natToDec n ≠ [] := by
  unfold natToDec
  split
  · simp
  · next h =>
    simp only [ne_eq, List.reverse_eq_nil_iff, List.map_eq_nil_iff]
    match hm : n with
    | 0 => omega
    | m + 1 => rw [natDigitsRev]; simp

theorem natToDec_all_digits (n : Nat) : ∀ c ∈ natToDec n, isDigitC c = true := by
  unfold natToDec
  split
  · intro c hc; simp at hc; subst hc; decide
  · intro c hc
    simp only [List.mem_reverse, List.mem_map] at hc
    obtain ⟨d, hd, hcd⟩ := hc
    subst hcd
    exact isDigitC_digitChar (natDigitsRev_lt_ten n d hd)

/-! ## Parsing primitives (strtol, atoi, trimming, splitting) -/

/-- Big-endian accumulation of decimal digit characters, as `strtol`
accumulates its result. -/
def digitsValAux (acc : Nat) : List Char → Nat
  | [] => acc
  | c :: r => digitsValAux (acc * 10 + digitVal c) r

/-- Value of a big-endian run of decimal digit characters. -/
def digitsVal (ds : List Char) : Nat := digitsValAux 0 ds

theorem digitsValAux_append (a : Nat) (xs ys : List Char) :
    digitsValAux a (xs ++ ys) = digitsValAux (digitsValAux a xs) ys := by
  induction xs generalizing a with
  | nil => rfl
  | cons c r ih =>
    show digitsValAux (a * 10 + digitVal c) (r ++ ys)
      = digitsValAux (digitsValAux (a * 10 + digitVal c) r) ys
    exact ih _

theorem digitsValAux_single (a : Nat) (c : Char) :
    digitsValAux a [c] = a * 10 + digitVal c := rfl

theorem digitsValAux_map_reverse (a : Nat) (ds : List Nat) (h : ∀ d ∈ ds, d < 10) :
    digitsValAux a ((ds.map digitChar).reverse) = a * 10 ^ ds.length + valRev ds := by
  induction ds generalizing a with
  | nil => show a = a * 1 + 0; ring
  | cons d ds ih =>
    have hd : d < 10 := h d (List.mem_cons_self _ _)
    have hds : ∀ x ∈ ds, x < 10 := fun x hx => h x (List.mem_cons_of_mem _ hx)
    rw [List.map_cons, List.reverse_cons, digitsValAux_append, ih a hds,
      digitsValAux_single, digitVal_digitChar hd]
    show _ = a * 10 ^ (ds.length + 1) + (d + 10 * valRev ds)
    ring

theorem digitsVal_natToDec (n : Nat) : digitsVal (natToDec n) = n := by
  by_cases h : n = 0
  · subst h; decide
  · rw [natToDec, if_neg h, digitsVal,
      digitsValAux_map_reverse 0 _ (natDigitsRev_lt_ten n)]
    simp [valRev_natDigitsRev]

/-- Digit-run consumption of `strtol` after the whitespace skip: an optional
sign followed by at least one decimal digit; `none` when no conversion is
performed. -/
def strtolBody : List Char → Option (Int × List Char)
  | [] => none
  | c :: r =>
    if c = '-' then
      let ds := r.takeWhile isDigitC
      if ds = [] then none else some (-(digitsVal ds : Int), r.drop ds.length)
    else if c = '+' then
      let ds := r.takeWhile isDigitC
      if ds = [] then none else some ((digitsVal ds : Int), r.drop ds.length)
    else
      let ds := (c :: r).takeWhile isDigitC
      if ds = [] then none else some ((digitsVal ds : Int), (c :: r).drop ds.length)

/-- The `strtol(str, &endPtr, 10)` model: skips C whitespace, consumes an
optional sign and a run of decimal digits; returns the value and the
unconsumed suffix (what `endPtr` points at).  If no digits are consumed the
value is 0 and the suffix is the entire input (`endPtr == nptr`). -/
def strtol10 (s : List Char) : Int × List Char :=
  (strtolBody (s.dropWhile isSpaceC)).getD (0, s)

/-- The `v = strtol(s, &endPtr, 10); if (*endPtr != '\0') reject` pattern
used throughout `SavedRectanglesManager::ParseLine`: the parse succeeds only
when the whole string is consumed. -/
def strtolAll (s : List Char) : Option Int :=
  let p := strtol10 s
  if p.2 = [] then some p.1 else none

/-- The `atoi` model used by `LoadSavedRectangles` and `LoadShortcutConfig`
in ScreenInversion.cpp: the `strtol` value with no end-pointer validation. -/
def atoiI (s : List Char) : Int := (strtol10 s).1

theorem takeWhile_eq_self_of_all {p : Char → Bool} :
    ∀ {l : List Char}, (∀ c ∈ l, p c = true) → l.takeWhile p = l := by
  intro l h
  induction l with
  | nil => rfl
  | cons c r ih =>
    rw [List.takeWhile_cons, h c (List.mem_cons_self _ _)]
    simp [ih fun x hx => h x (List.mem_cons_of_mem _ hx)]

theorem dropWhile_eq_self_of_all {p : Char → Bool} :
    ∀ {l : List Char}, (∀ c ∈ l, p c = false) → l.dropWhile p = l := by
  intro l h
  match l with
  | [] => rfl
  | c :: r => rw [List.dropWhile_cons, h c (List.mem_cons_self _ _)]; simp

theorem strtolBody_digit_run {l : List Char} (hne : l ≠ [])
    (hdigits : ∀ x ∈ l, isDigitC x = true) :
    strtolBody l = some ((digitsVal l : Int), []) := by
  match l with
  | [] => exact absurd rfl hne
  | c :: r =>
    have hc : isDigitC c = true := hdigits c (List.mem_cons_self _ _)
    obtain ⟨_, _, hcm, hcp, _, _, _, _⟩ := isDigitC_char_facts hc
    have htake : (c :: r).takeWhile isDigitC = c :: r := takeWhile_eq_self_of_all hdigits
    rw [strtolBody]
    rw [if_neg hcm, if_neg hcp, htake]
    rw [if_neg (by simp)]
    rw [List.drop_length]

theorem natToDec_dropWhile_space (n : Nat) :
    (natToDec n).dropWhile isSpaceC = natToDec n :=
  dropWhile_eq_self_of_all fun c hc =>
    (isDigitC_char_facts (natToDec_all_digits n c hc)).2.2.2.2.2.2.1

theorem strtol10_natToDec (n : Nat) : strtol10 (natToDec n) = ((n : Int), []) := by
  rw [strtol10, natToDec_dropWhile_space,
    strtolBody_digit_run (natToDec_ne_nil n) (natToDec_all_digits n),
    digitsVal_natToDec]
  rfl

theorem strtol10_neg_natToDec (m : Nat) :
    strtol10 ('-' :: natToDec m) = (-(m : Int), []) := by
  have hdropm : ('-' :: natToDec m).dropWhile isSpaceC = '-' :: natToDec m := by
    rw [List.dropWhile_cons, show isSpaceC '-' = false from by decide]
    simp
  have htake : (natToDec m).takeWhile isDigitC = natToDec m :=
    takeWhile_eq_self_of_all (natToDec_all_digits m)
  rw [strtol10, hdropm, strtolBody]
  rw [if_pos rfl, htake]
  rw [if_neg (natToDec_ne_nil m)]
  rw [List.drop_length, digitsVal_natToDec]
  rfl

theorem strtolAll_intToDec (v : Int) : strtolAll (intToDec v) = some v := by
  unfold intToDec
  split
  · next hneg =>
    unfold strtolAll
    rw [strtol10_neg_natToDec]
    have : ((-v).toNat : Int) = -v := Int.toNat_of_nonneg (by omega)
    simp [this]
  · next hnn =>
    unfold strtolAll
    rw [strtol10_natToDec]
    have : (v.toNat : Int) = v := Int.toNat_of_nonneg (by omega)
    simp [this]

/-- Trimming as done by the paired `erase(0, find_first_not_of(" \t"))` and
`erase(find_last_not_of(" \t") + 1)` calls. -/
def trimWS (s : List Char) : List Char :=
  ((s.dropWhile isSpaceTab).reverse.dropWhile isSpaceTab).reverse

theorem trimWS_eq_self {s : List Char} (h : ∀ c ∈ s, isSpaceTab c = false) :
    trimWS s = s := by
  unfold trimWS
  rw [dropWhile_eq_self_of_all h,
    dropWhile_eq_self_of_all (fun c hc => h c (List.mem_reverse.mp hc)),
    List.reverse_reverse]

/-- The `line.find('=')` / `substr` pair: the text before the first `=` and
the text after it, or `none` when the line has no `=`. -/
def splitEq (line : List Char) : Option (List Char × List Char) :=
  let pre := line.takeWhile (· ≠ '=')
  if pre.length = line.length then none
  else some (pre, line.drop (pre.length + 1))

theorem splitEq_append {a : List Char} (b : List Char) (h : ∀ c ∈ a, c ≠ '=') :
    splitEq (a ++ '=' :: b) = some (a, b) := by
  have htake : (a ++ '=' :: b).takeWhile (· ≠ '=') = a := by
    induction a with
    | nil => simp [List.takeWhile_cons]
    | cons c r ih =>
      simp only [List.cons_append, List.takeWhile_cons]
      rw [if_pos (by simpa using h c (List.mem_cons_self _ _))]
      rw [ih fun x hx => h x (List.mem_cons_of_mem _ hx)]
  unfold splitEq
  rw [htake]
  rw [if_neg (by simp only [List.length_append, List.length_cons]; omega)]
  have h1 : a ++ '=' :: b = (a ++ ['=']) ++ b := by simp
  have h2 : (a ++ ['=']).length = a.length + 1 := by simp
  rw [h1, List.drop_left' h2]

/-! ## Comma splitting (the `while (std::getline(ss, item, ','))` loop) -/

/-- One run of the `std::getline(ss, item, ',')` loop with the partial item
accumulated in `acc`.  `getline` consumes the delimiter; a call that finds
the stream already at end-of-file fails and ends the loop, so a trailing
delimiter does not produce a final empty item. -/
def splitGo (acc : List Char) : List Char → List (List Char)
  | [] => [acc]
  | c :: r =>
    if c = ',' then
      if r = [] then [acc] else acc :: splitGo [] r
    else splitGo (acc ++ [c]) r

/-- Comma splitting of a whole string: the empty string yields no items
(the first `getline` call fails at once). -/
def splitComma : List Char → List (List Char)
  | [] => []
  | c :: r => splitGo [] (c :: r)

/-- The `file << a << "," << b << ...` form of the data written by `Save`:
the fields joined by single commas. -/
def joinComma : List (List Char) → List Char
  | [] => []
  | [f] => f
  | f :: g :: rest => f ++ ',' :: joinComma (g :: rest)

theorem splitGo_append (f : List Char) (hf : ∀ c ∈ f, c ≠ ',') :
    ∀ (acc t : List Char), splitGo acc (f ++ t) = splitGo (acc ++ f) t := by
  induction f with
  | nil => intro acc t; simp
  | cons c r ih =>
    intro acc t
    have hc : c ≠ ',' := hf c (List.mem_cons_self _ _)
    rw [List.cons_append, splitGo, if_neg hc,
      ih (fun x hx => hf x (List.mem_cons_of_mem _ hx)) (acc ++ [c]) t]
    congr 1
    simp

theorem splitComma_of_ne_nil {l : List Char} (h : l ≠ []) :
    splitComma l = splitGo [] l := by
  match l with
  | [] => exact absurd rfl h
  | c :: r => rfl

theorem joinComma_ne_nil : ∀ {fs : List (List Char)}, fs ≠ [] →
    (∀ f ∈ fs, f ≠ []) → joinComma fs ≠ [] := by
  intro fs hne hmem
  match fs with
  | [f] => rw [joinComma]; exact hmem f (List.mem_cons_self _ _)
  | f :: g :: rest =>
    rw [joinComma]
    match f with
    | [] => simp
    | x :: xs => simp

theorem splitComma_joinComma : ∀ (fs : List (List Char)), fs ≠ [] →
    (∀ f ∈ fs, ∀ c ∈ f, c ≠ ',') → (∀ f ∈ fs, f ≠ []) →
    splitComma (joinComma fs) = fs := by
  intro fs
  induction fs with
  | nil => intro h; exact absurd rfl h
  | cons f rest ih =>
    intro _ hnc hne
    have hfne : f ≠ [] := hne f (List.mem_cons_self _ _)
    have hfnc : ∀ c ∈ f, c ≠ ',' := hnc f (List.mem_cons_self _ _)
    match rest with
    | [] =>
      rw [joinComma, splitComma_of_ne_nil hfne]
      have h0 := splitGo_append f hfnc [] []
      rw [List.append_nil] at h0
      rw [h0]
      rfl
    | g :: rest2 =>
      have hjne : joinComma (g :: rest2) ≠ [] :=
        joinComma_ne_nil (by simp) (fun x hx => hne x (List.mem_cons_of_mem _ hx))
      rw [joinComma, splitComma_of_ne_nil (by cases f <;> simp),
        splitGo_append f hfnc [] (',' :: joinComma (g :: rest2))]
      rw [List.nil_append, splitGo, if_pos rfl, if_neg hjne,
        ← splitComma_of_ne_nil hjne,
        ih (by simp) (fun x hx => hnc x (List.mem_cons_of_mem _ hx))
          (fun x hx => hne x (List.mem_cons_of_mem _ hx))]

/-! ## SavedRectanglesManager (SavedRectanglesManager.h / .cpp) -/

/-- The Win32 `RECT`, with `LONG` fields modelled as `Int`. -/
structure RectI where
  left : Int
  top : Int
  right : Int
  bottom : Int
deriving DecidableEq

/-- `SavedRectEntry` from SavedRectanglesManager.h. -/
structure SavedRectEntry where
  rect : RectI
  inversionEnabled : Bool
  grayscaleEnabled : Bool
  grayLevel : Int
  isValid : Bool
deriving DecidableEq

/-- The default-constructed `SavedRectEntry` (its constructor zeroes the
rect and clears all flags). -/
def emptyEntry : SavedRectEntry := ⟨⟨0, 0, 0, 0⟩, false, false, 0, false⟩

/-- The `entries[NUM_SAVED_RECTS]` array of the manager, indexed by slot
number; the parser only ever stores at indices in `[0, 10)`. -/
abbrev Store := Int → SavedRectEntry

/-- A freshly constructed `SavedRectanglesManager`: all entries invalid. -/
def emptyStore : Store := fun _ => emptyEntry

/-- `entries[slot] = entry` (also `SetEntry` for an in-range slot). -/
def setEntry (st : Store) (i : Int) (e : SavedRectEntry) : Store :=
  fun j => if j = i then e else st j

/-- The color-settings part of `SavedRectanglesManager::ParseLine`
(lines 54-67): with 7 or more items the three extra fields are parsed
strictly and the gray level is range-checked to 0-3; with 4-6 items the
old-format defaults `{invert=true, grayscale=false, grayLevel=0}` apply;
with fewer than 4 items the line is rejected. -/
def parseEntryData : List (List Char) → Option SavedRectEntry
  | i0 :: i1 :: i2 :: i3 :: rest =>
    match strtolAll i0, strtolAll i1, strtolAll i2, strtolAll i3 with
    | some lf, some tp, some rg, some bt =>
      match rest with
      | i4 :: i5 :: i6 :: _ =>
        match strtolAll i4, strtolAll i5, strtolAll i6 with
        | some vinv, some vgs, some vgl =>
          if vgl < 0 ∨ 3 < vgl then none
          else some ⟨⟨lf, tp, rg, bt⟩, decide (vinv ≠ 0), decide (vgs ≠ 0), vgl, true⟩
        | _, _, _ => none
      | _ => some ⟨⟨lf, tp, rg, bt⟩, true, false, 0, true⟩
    | _, _, _, _ => none
  | _ => none

/-- The slot parse of `SavedRectanglesManager::ParseLine` (lines 27-31):
`strtol` with full-consumption check and the `[0, NUM_SAVED_RECTS)` range
check, then the comma-split data parse. -/
def parseSlotAndData (slotStr dataStr : List Char) : Option (Int × SavedRectEntry) :=
  if (strtol10 slotStr).2 ≠ [] ∨ (strtol10 slotStr).1 < 0 ∨ 10 ≤ (strtol10 slotStr).1 then
    none
  else
    match parseEntryData (splitComma dataStr) with
    | none => none
    | some e => some ((strtol10 slotStr).1, e)

/-- `SavedRectanglesManager::ParseLine`: comment/empty-line skip, the
`find('=')` split, trimming, then slot and data parsing. -/
def ParseLine (line : List Char) : Option (Int × SavedRectEntry) :=
  match line with
  | [] => none
  | c :: cs =>
    if c = '#' ∨ c = ';' then none
    else
      match splitEq (c :: cs) with
      | none => none
      | some (slotRaw, dataRaw) => parseSlotAndData (trimWS slotRaw) (trimWS dataRaw)

/-- One iteration of the `while (std::getline(file, line))` loop of
`SavedRectanglesManager::Load`: a line that parses updates its slot,
any other line leaves the store unchanged. -/
def loadStep (st : Store) (line : List Char) : Store :=
  match ParseLine line with
  | none => st
  | some (slot, e) => setEntry st slot e

/-- The whole getline loop of `Load` over a list of lines. -/
def loadLines (st : Store) (lines : List (List Char)) : Store :=
  lines.foldl loadStep st

/-- `SavedRectanglesManager::Load` on an opened file, starting from the
default-constructed entry array. -/
def LoadFile (lines : List (List Char)) : Store := loadLines emptyStore lines

/-- An integer field as `ofstream <<` writes a bool converted with
`(b ? 1 : 0)`. -/
def boolDec (b : Bool) : List Char := intToDec (if b then 1 else 0)

/-- The seven comma-separated fields `Save` writes for one entry
(SavedRectanglesManager.cpp lines 107-114). -/
def entryFields (e : SavedRectEntry) : List (List Char) :=
  [intToDec e.rect.left, intToDec e.rect.top, intToDec e.rect.right,
   intToDec e.rect.bottom, boolDec e.inversionEnabled,
   boolDec e.grayscaleEnabled, intToDec e.grayLevel]

/-- One `slot=left,top,right,bottom,invert,grayscale,grayLevel` line as
written by `Save`. -/
def entryLine (i : Int) (e : SavedRectEntry) : List Char :=
  intToDec i ++ '=' :: joinComma (entryFields e)

/-- The comment block `Save` writes first; the final `"\n\n"` of the block
produces one empty line. -/
def headerLines : List (List Char) :=
  [("# Saved Rectangle Configurations with Color Settings").toList,
   ("# Format: SlotNumber=Left,Top,Right,Bottom,Invert,Grayscale,GrayLevel").toList,
   ("# Slots 1-9 available. Use 0 to cycle, 1-9 to load, Ctrl+1-9 to save.").toList,
   ("# Invert: 1=enabled, 0=disabled").toList,
   ("# Grayscale: 1=enabled, 0=disabled").toList,
   ("# GrayLevel: 0=100%, 1=80%, 2=60%, 3=40%").toList,
   []]

/-- The slot indices visited by the `for (int i = 0; i < NUM_SAVED_RECTS; i++)`
loops. -/
def slotList : List Int := [0, 1, 2, 3, 4, 5, 6, 7, 8, 9]

/-- The entry lines `Save` writes for the slots in `sl`, in order: one line
per valid slot. -/
def saveLinesFor (st : Store) (sl : List Int) : List (List Char) :=
  sl.filterMap (fun i => if (st i).isValid then some (entryLine i (st i)) else none)

/-- `SavedRectanglesManager::Save`: the header comment block followed by
one line per valid slot, in slot order. -/
def SaveFile (st : Store) : List (List Char) :=
  headerLines ++ saveLinesFor st slotList

/-- The overlay loop of `SavePreservingExisting` (lines 150-155): every
slot this instance holds as valid replaces the freshly loaded file state. -/
def mergeStore (fileState ours : Store) : Store :=
  fun j => if (ours j).isValid then ours j else fileState j

/-- `SavedRectanglesManager::SavePreservingExisting`: reload the on-disk
lines into a fresh store, overlay this instance's valid entries, and save
the merged result. -/
def SavePreservingExisting (disk : List (List Char)) (ours : Store) : List (List Char) :=
  SaveFile (mergeStore (LoadFile disk) ours)

/-! ## Round-trip of one saved line -/

theorem intToDec_chars (v : Int) : ∀ c ∈ intToDec v, isDigitC c = true ∨ c = '-' := by
  unfold intToDec
  split
  · intro c hc
    rcases List.mem_cons.mp hc with h | h
    · right; exact h
    · left; exact natToDec_all_digits _ c h
  · intro c hc
    left
    exact natToDec_all_digits _ c hc

theorem intToDec_ne_nil (v : Int) : intToDec v ≠ [] := by
  unfold intToDec
  split
  · simp
  · exact natToDec_ne_nil _

theorem intToDec_no_comma (v : Int) : ∀ c ∈ intToDec v, c ≠ ',' := by
  intro c hc
  rcases intToDec_chars v c hc with h | h
  · exact (isDigitC_char_facts h).1
  · subst h; decide

theorem intToDec_no_ws (v : Int) : ∀ c ∈ intToDec v, isSpaceTab c = false := by
  intro c hc
  rcases intToDec_chars v c hc with h | h
  · exact (isDigitC_char_facts h).2.2.2.2.2.2.2
  · subst h; decide

theorem intToDec_no_eq (v : Int) : ∀ c ∈ intToDec v, c ≠ '=' := by
  intro c hc
  rcases intToDec_chars v c hc with h | h
  · exact (isDigitC_char_facts h).2.1
  · subst h; decide

theorem mem_entryFields_intToDec {e : SavedRectEntry} {f : List Char}
    (hf : f ∈ entryFields e) : ∃ v, f = intToDec v := by
  simp only [entryFields, boolDec, List.mem_cons, List.not_mem_nil, or_false] at hf
  rcases hf with h | h | h | h | h | h | h <;> exact ⟨_, h⟩

theorem entryFields_ne_nil (e : SavedRectEntry) : ∀ f ∈ entryFields e, f ≠ [] := by
  intro f hf
  obtain ⟨v, hv⟩ := mem_entryFields_intToDec hf
  rw [hv]
  exact intToDec_ne_nil v

theorem entryFields_no_comma (e : SavedRectEntry) :
    ∀ f ∈ entryFields e, ∀ c ∈ f, c ≠ ',' := by
  intro f hf c hc
  obtain ⟨v, hv⟩ := mem_entryFields_intToDec hf
  subst hv
  exact intToDec_no_comma v c hc

theorem mem_joinComma {fs : List (List Char)} {c : Char} :
    c ∈ joinComma fs → c = ',' ∨ ∃ f ∈ fs, c ∈ f := by
  induction fs with
  | nil => intro hc; rw [joinComma] at hc; simp at hc
  | cons f rest ih =>
    cases rest with
    | nil =>
      intro hc
      rw [joinComma] at hc
      right
      exact ⟨f, List.mem_cons_self _ _, hc⟩
    | cons g r2 =>
      intro hc
      rw [joinComma] at hc
      rcases List.mem_append.mp hc with h | h
      · right; exact ⟨f, List.mem_cons_self _ _, h⟩
      · rcases List.mem_cons.mp h with h | h
        · left; exact h
        · rcases ih h with h | ⟨f2, hf2, hc2⟩
          · left; exact h
          · right; exact ⟨f2, List.mem_cons_of_mem _ hf2, hc2⟩

theorem strtolAll_boolDec (b : Bool) :
    strtolAll (boolDec b) = some (if b then 1 else 0) := by
  rw [boolDec]
  exact strtolAll_intToDec _

theorem decide_boolVal (b : Bool) :
    decide ((if b then (1 : Int) else 0) ≠ 0) = b := by
  cases b <;> decide

theorem trimWS_joinComma_entryFields (e : SavedRectEntry) :
    trimWS (joinComma (entryFields e)) = joinComma (entryFields e) := by
  apply trimWS_eq_self
  intro c hc
  rcases mem_joinComma hc with h | ⟨f, hf, hcf⟩
  · subst h; decide
  · obtain ⟨v, hv⟩ := mem_entryFields_intToDec hf
    subst hv
    exact intToDec_no_ws v c hcf

theorem splitComma_entryFields (e : SavedRectEntry) :
    splitComma (joinComma (entryFields e)) = entryFields e :=
  splitComma_joinComma (entryFields e) (by simp [entryFields])
    (entryFields_no_comma e) (entryFields_ne_nil e)

theorem parseEntryData_entryFields (e : SavedRectEntry) :
    parseEntryData (entryFields e) =
      if e.grayLevel < 0 ∨ 3 < e.grayLevel then none
      else some { e with isValid := true } := by
  rw [entryFields, parseEntryData]
  rw [strtolAll_intToDec, strtolAll_intToDec, strtolAll_intToDec, strtolAll_intToDec]
  simp only
  rw [strtolAll_boolDec, strtolAll_boolDec, strtolAll_intToDec]
  simp only
  split
  · rfl
  · simp only [decide_boolVal]

theorem parseSlotAndData_inRange {i : Int} (h0 : 0 ≤ i) (h10 : i < 10)
    (dataStr : List Char) :
    parseSlotAndData (intToDec i) dataStr =
      match parseEntryData (splitComma dataStr) with
      | none => none
      | some e => some (i, e) := by
  have hi : intToDec i = natToDec i.toNat := by rw [intToDec, if_neg (by omega)]
  have hti : (i.toNat : Int) = i := Int.toNat_of_nonneg h0
  unfold parseSlotAndData
  rw [hi, strtol10_natToDec, hti]
  rw [if_neg (by push_neg; exact ⟨rfl, h0, h10⟩)]

theorem ParseLine_entryLine {i : Int} (h0 : 0 ≤ i) (h10 : i < 10)
    (e : SavedRectEntry) :
    ParseLine (entryLine i e) =
      if e.grayLevel < 0 ∨ 3 < e.grayLevel then none
      else some (i, { e with isValid := true }) := by
  have hi : intToDec i = natToDec i.toNat := by rw [intToDec, if_neg (by omega)]
  obtain ⟨d, ds, hcr⟩ : ∃ d ds, intToDec i = d :: ds := by
    match h : intToDec i with
    | [] => exact absurd h (intToDec_ne_nil _)
    | d :: ds => exact ⟨d, ds, rfl⟩
  have halldig : ∀ c ∈ intToDec i, isDigitC c = true := by
    rw [hi]; exact natToDec_all_digits _
  have hdigits : ∀ x ∈ d :: ds, isDigitC x = true := by
    rw [← hcr]; exact halldig
  have hdfacts := isDigitC_char_facts (hdigits d (List.mem_cons_self _ _))
  rw [entryLine, hcr, List.cons_append, ParseLine]
  rw [if_neg (by push_neg; exact ⟨hdfacts.2.2.2.2.1, hdfacts.2.2.2.2.2.1⟩)]
  rw [← List.cons_append, ← hcr,
    splitEq_append _ (fun c hc => (isDigitC_char_facts (halldig c hc)).2.1)]
  show parseSlotAndData (trimWS (intToDec i)) (trimWS (joinComma (entryFields e))) = _
  rw [trimWS_eq_self (fun c hc => (isDigitC_char_facts (halldig c hc)).2.2.2.2.2.2.2),
    trimWS_joinComma_entryFields, parseSlotAndData_inRange h0 h10,
    splitComma_entryFields, parseEntryData_entryFields]
  by_cases hgl : e.grayLevel < 0 ∨ 3 < e.grayLevel
  · rw [if_pos hgl, if_pos hgl]
  · rw [if_neg hgl, if_neg hgl]

/-! ## Load after Save -/

theorem entry_isValid_eta {e : SavedRectEntry} (h : e.isValid = true) :
    { e with isValid := true } = e := by
  cases e
  simp_all

theorem loadLines_of_all_none {lines : List (List Char)}
    (h : ∀ l ∈ lines, ParseLine l = none) :
    ∀ st : Store, loadLines st lines = st := by
  induction lines with
  | nil => intro st; rfl
  | cons l rest ih =>
    intro st
    have hstep : loadStep st l = st := by
      unfold loadStep
      rw [h l (List.mem_cons_self _ _)]
    show loadLines (loadStep st l) rest = st
    rw [hstep, ih fun x hx => h x (List.mem_cons_of_mem _ hx)]

theorem ParseLine_headerLines : ∀ l ∈ headerLines, ParseLine l = none := by
  decide

theorem loadLines_append (st : Store) (xs ys : List (List Char)) :
    loadLines st (xs ++ ys) = loadLines (loadLines st xs) ys :=
  List.foldl_append ..

theorem loadLines_saveLinesFor_not_mem (M : Store) (sl : List Int) (s : Int)
    (hsl : ∀ i ∈ sl, 0 ≤ i ∧ i < 10) (hns : s ∉ sl) :
    ∀ st : Store, loadLines st (saveLinesFor M sl) s = st s := by
  induction sl with
  | nil => intro st; rfl
  | cons i rest ih =>
    intro st
    have hi := hsl i (List.mem_cons_self _ _)
    have hsi : s ≠ i := fun h => hns (h ▸ List.mem_cons_self _ _)
    have hrest : ∀ j ∈ rest, 0 ≤ j ∧ j < 10 :=
      fun j hj => hsl j (List.mem_cons_of_mem _ hj)
    have hnsr : s ∉ rest := fun h => hns (List.mem_cons_of_mem _ h)
    rw [saveLinesFor, List.filterMap_cons]
    by_cases hval : (M i).isValid = true
    · rw [if_pos hval]
      show loadLines (loadStep st (entryLine i (M i))) (saveLinesFor M rest) s = st s
      rw [ih hrest hnsr]
      unfold loadStep
      rw [ParseLine_entryLine hi.1 hi.2]
      by_cases hgl : (M i).grayLevel < 0 ∨ 3 < (M i).grayLevel
      · rw [if_pos hgl]
      · rw [if_neg hgl]
        show setEntry st i _ s = st s
        unfold setEntry
        rw [if_neg hsi]
    · rw [if_neg hval]
      exact ih hrest hnsr st

theorem loadLines_saveLinesFor_mem (M : Store) (sl : List Int) (s : Int)
    (hsl : ∀ i ∈ sl, 0 ≤ i ∧ i < 10) (hnd : sl.Nodup) (hs : s ∈ sl)
    (hv : (M s).isValid = true) (hgl0 : 0 ≤ (M s).grayLevel)
    (hgl3 : (M s).grayLevel ≤ 3) :
    ∀ st : Store, loadLines st (saveLinesFor M sl) s = M s := by
  induction sl with
  | nil => exact absurd hs (List.not_mem_nil s)
  | cons i rest ih =>
    intro st
    have hi := hsl i (List.mem_cons_self _ _)
    have hrest : ∀ j ∈ rest, 0 ≤ j ∧ j < 10 :=
      fun j hj => hsl j (List.mem_cons_of_mem _ hj)
    have hndr : rest.Nodup := (List.nodup_cons.mp hnd).2
    by_cases hsi : s = i
    · subst hsi
      have hnsr : s ∉ rest := (List.nodup_cons.mp hnd).1
      rw [saveLinesFor, List.filterMap_cons, if_pos hv]
      show loadLines (loadStep st (entryLine s (M s))) (saveLinesFor M rest) s = M s
      rw [loadLines_saveLinesFor_not_mem M rest s hrest hnsr]
      unfold loadStep
      rw [ParseLine_entryLine hi.1 hi.2,
        if_neg (by push_neg; exact ⟨hgl0, hgl3⟩), entry_isValid_eta hv]
      show setEntry st s (M s) s = M s
      unfold setEntry
      rw [if_pos rfl]
    · have hsr : s ∈ rest := (List.mem_cons.mp hs).resolve_left hsi
      rw [saveLinesFor, List.filterMap_cons]
      by_cases hval : (M i).isValid = true
      · rw [if_pos hval]
        show loadLines (loadStep st (entryLine i (M i))) (saveLinesFor M rest) s = M s
        exact ih hrest hndr hsr _
      · rw [if_neg hval]
        exact ih hrest hndr hsr st

theorem mem_slotList {s : Int} (h0 : 0 ≤ s) (h10 : s < 10) : s ∈ slotList := by
  unfold slotList
  interval_cases s <;> decide

/-- Core round-trip fact: `Load` after `Save` restores every valid entry
whose gray level is in range. -/
theorem loadFile_saveFile (M : Store) (s : Int) (h0 : 0 ≤ s) (h10 : s < 10)
    (hv : (M s).isValid = true) (hgl0 : 0 ≤ (M s).grayLevel)
    (hgl3 : (M s).grayLevel ≤ 3) :
    LoadFile (SaveFile M) s = M s := by
  unfold LoadFile SaveFile
  rw [loadLines_append, loadLines_of_all_none ParseLine_headerLines]
  exact loadLines_saveLinesFor_mem M slotList s (by decide) (by decide)
    (mem_slotList h0 h10) hv hgl0 hgl3 emptyStore

/-! ## Claim C2: save/load round trip -/

/-- C2: for every slot in 0-9 and every `SavedRectEntry` with
`isValid = true` and `grayLevel` in `[0, 3]`, writing the store with
`SavedRectanglesManager::Save` and then reading the produced file with
`Load` yields an entry at that slot whose rect fields, `inversionEnabled`,
`grayscaleEnabled` and `grayLevel` equal the saved entry's fields. -/
theorem c2_save_then_load_roundtrip (M : Store) (s : Int)
    (h0 : 0 ≤ s) (h10 : s < 10) (hv : (M s).isValid = true)
    (hgl0 : 0 ≤ (M s).grayLevel) (hgl3 : (M s).grayLevel ≤ 3) :
    (LoadFile (SaveFile M) s).rect.left = (M s).rect.left
    ∧ (LoadFile (SaveFile M) s).rect.top = (M s).rect.top
    ∧ (LoadFile (SaveFile M) s).rect.right = (M s).rect.right
    ∧ (LoadFile (SaveFile M) s).rect.bottom = (M s).rect.bottom
    ∧ (LoadFile (SaveFile M) s).inversionEnabled = (M s).inversionEnabled
    ∧ (LoadFile (SaveFile M) s).grayscaleEnabled = (M s).grayscaleEnabled
    ∧ (LoadFile (SaveFile M) s).grayLevel = (M s).grayLevel := by
  rw [loadFile_saveFile M s h0 h10 hv hgl0 hgl3]
  exact ⟨rfl, rfl, rfl, rfl, rfl, rfl, rfl⟩

/-- A concrete store with one valid entry at slot 2 (the spec's worked
example `2=10,20,310,220,1,0,2`). -/
def exampleStore : Store :=
  fun j => if j = 2 then ⟨⟨10, 20, 310, 220⟩, true, false, 2, true⟩ else emptyEntry

/-- Witness for C2 at slot 2 of `exampleStore`. -/
theorem c2_save_then_load_roundtrip_witness :
    ((0 : Int) ≤ 2 ∧ (2 : Int) < 10 ∧ (exampleStore 2).isValid = true
      ∧ 0 ≤ (exampleStore 2).grayLevel ∧ (exampleStore 2).grayLevel ≤ 3)
    ∧ (LoadFile (SaveFile exampleStore) 2).grayLevel = (exampleStore 2).grayLevel :=
  ⟨⟨by decide, by decide, by decide, by decide, by decide⟩,
    (c2_save_then_load_roundtrip exampleStore 2 (by decide) (by decide)
      (by decide) (by decide) (by decide)).2.2.2.2.2.2⟩

/-! ## Claim C5: SavePreservingExisting keeps other instances' slots -/

/-- C5: if the on-disk file (written by another instance from store `D`)
has a valid entry at slot 3 and this instance's store `A` holds slot 3 as
invalid, then after `SavePreservingExisting` the file still carries `D`'s
slot 3 entry, while every slot `A` holds as valid carries `A`'s entry. -/
theorem c5_save_preserving_existing (D A : Store)
    (hdv : (D 3).isValid = true) (hd0 : 0 ≤ (D 3).grayLevel)
    (hd3 : (D 3).grayLevel ≤ 3) (hav : (A 3).isValid = false) :
    LoadFile (SavePreservingExisting (SaveFile D) A) 3 = D 3
    ∧ (∀ s : Int, 0 ≤ s → s < 10 → (A s).isValid = true →
        0 ≤ (A s).grayLevel → (A s).grayLevel ≤ 3 →
        LoadFile (SavePreservingExisting (SaveFile D) A) s = A s) := by
  unfold SavePreservingExisting
  have hm3 : mergeStore (LoadFile (SaveFile D)) A 3 = D 3 := by
    unfold mergeStore
    rw [hav]
    show LoadFile (SaveFile D) 3 = D 3
    exact loadFile_saveFile D 3 (by decide) (by decide) hdv hd0 hd3
  constructor
  · rw [loadFile_saveFile _ 3 (by decide) (by decide)
      (by rw [hm3]; exact hdv) (by rw [hm3]; exact hd0) (by rw [hm3]; exact hd3)]
    exact hm3
  · intro s h0 h10 hsv hs0 hs3
    have hms : mergeStore (LoadFile (SaveFile D)) A s = A s := by
      unfold mergeStore
      rw [hsv]
      simp
    rw [loadFile_saveFile _ s h0 h10
      (by rw [hms]; exact hsv) (by rw [hms]; exact hs0) (by rw [hms]; exact hs3)]
    exact hms

/-- A second instance's store: valid entries at slots 1 and 5, slot 3
invalid. -/
def otherInstanceStore : Store :=
  fun j =>
    if j = 1 then ⟨⟨0, 0, 400, 300⟩, false, true, 1, true⟩
    else if j = 5 then ⟨⟨-5, 7, 200, 150⟩, true, true, 3, true⟩
    else emptyEntry

/-- A first instance's store holding a valid slot 3 entry. -/
def diskOwnerStore : Store :=
  fun j => if j = 3 then ⟨⟨100, 200, 300, 400⟩, true, false, 0, true⟩ else emptyEntry

/-- Witness for C5: `diskOwnerStore` wrote the disk, `otherInstanceStore`
saves preserving existing entries; slot 3 survives and slot 5 is taken from
the saving instance. -/
theorem c5_save_preserving_existing_witness :
    ((diskOwnerStore 3).isValid = true ∧ (otherInstanceStore 3).isValid = false)
    ∧ LoadFile (SavePreservingExisting (SaveFile diskOwnerStore) otherInstanceStore) 3
        = diskOwnerStore 3
    ∧ LoadFile (SavePreservingExisting (SaveFile diskOwnerStore) otherInstanceStore) 5
        = otherInstanceStore 5 := by
  have h := c5_save_preserving_existing diskOwnerStore otherInstanceStore
    (by decide) (by decide) (by decide) (by decide)
  exact ⟨⟨by decide, by decide⟩, h.1,
    h.2 5 (by decide) (by decide) (by decide) (by decide) (by decide)⟩

/-! ## The ScreenInversion.cpp saved-rectangles structure and loader -/

/-- `struct SavedRectangles` from ScreenInversion.cpp: parallel arrays of
rectangles, validity flags and per-slot color settings. -/
structure SavedRectangles where
  rects : Int → RectI
  isValid : Int → Bool
  inversionSettings : Int → Bool
  grayscaleSettings : Int → Bool
  grayLevelSettings : Int → Int

/-- The `SavedRectangles()` constructor: every slot invalid, zeroed rect,
inversion and grayscale off, gray level 0. -/
def initialSavedRectangles : SavedRectangles :=
  ⟨fun _ => ⟨0, 0, 0, 0⟩, fun _ => false, fun _ => false, fun _ => false, fun _ => 0⟩

/-- One iteration of the getline loop of `LoadSavedRectangles`
(ScreenInversion.cpp lines 231-289): comment/empty skip, `find('=')`,
trimming, `atoi` slot parse with `[0, NUM_SAVED_RECTS)` range check, comma
split, and — for at least 4 items — lenient `atoi` field parses with
old-format defaults when fewer than 7 items are present.  No field is
validated and the gray level is not range checked. -/
def siLoadLine (st : SavedRectangles) (line : List Char) : SavedRectangles :=
  match line with
  | [] => st
  | c :: cs =>
    if c = '#' ∨ c = ';' then st
    else
      match splitEq (c :: cs) with
      | none => st
      | some (slotRaw, dataRaw) =>
        let slot := atoiI (trimWS slotRaw)
        if 0 ≤ slot ∧ slot < 10 then
          match splitComma (trimWS dataRaw) with
          | i0 :: i1 :: i2 :: i3 :: rest =>
            let newRect : RectI := ⟨atoiI i0, atoiI i1, atoiI i2, atoiI i3⟩
            let cset : Bool × Bool × Int :=
              match rest with
              | i4 :: i5 :: i6 :: _ =>
                (decide (atoiI i4 ≠ 0), decide (atoiI i5 ≠ 0), atoiI i6)
              | _ => (true, false, 0)
            { st with
              rects := fun j => if j = slot then newRect else st.rects j,
              inversionSettings := fun j =>
                if j = slot then cset.1 else st.inversionSettings j,
              grayscaleSettings := fun j =>
                if j = slot then cset.2.1 else st.grayscaleSettings j,
              grayLevelSettings := fun j =>
                if j = slot then cset.2.2 else st.grayLevelSettings j,
              isValid := fun j => if j = slot then true else st.isValid j }
          | _ => st
        else st

/-- The whole getline loop of `LoadSavedRectangles` over the lines of
`saved_rects.txt`. -/
def siLoad (st : SavedRectangles) (lines : List (List Char)) : SavedRectangles :=
  lines.foldl siLoadLine st

/-- The three color globals of ScreenInversion.cpp:
`inversionEnabled`, `grayscaleEnabled`, `grayLevel`. -/
structure ColorState where
  inversionEnabled : Bool
  grayscaleEnabled : Bool
  grayLevel : Int
deriving DecidableEq

/-- The startup values of the color globals (lines 123-125; the comment at
line 125 documents `grayLevel` as `0-3`). -/
def initialColorState : ColorState := ⟨false, false, 0⟩

/-- The effect of `LoadRectangle(slot)` (lines 336-359) on the color
globals: an empty or out-of-range slot changes nothing; otherwise the
slot's saved settings are restored, after which `ApplyLoadedRectangle`
(line 482) sets `inversionEnabled` back to `TRUE`.  The window moves and
title updates of both functions touch no color state. -/
def LoadRectangleColors (sr : SavedRectangles) (slot : Int) (cs : ColorState) : ColorState :=
  if slot < 0 ∨ 10 ≤ slot ∨ sr.isValid slot = false then cs
  else
    let restored : ColorState :=
      ⟨sr.inversionSettings slot, sr.grayscaleSettings slot, sr.grayLevelSettings slot⟩
    { restored with inversionEnabled := true }

/-! ## The color matrix (CalculateColorMatrix, both variants) -/

/-- `MAGCOLOREFFECT.transform`, a 5x5 float matrix modelled over `ℚ`. -/
abbrev Mat5 := Fin 5 → Fin 5 → ℚ

/-- The identity initialization (memset to 0 plus the five diagonal
writes, ScreenInversion.cpp lines 1032-1037). -/
def identMat5 : Mat5 := fun i j => if i = j then 1 else 0

/-- The luminance weights 0.299 / 0.587 / 0.114 assigned to channels
0 / 1 / 2 (`rWeight`, `gWeight`, `bWeight`). -/
def lumWeight (k : Fin 5) : ℚ :=
  if k = 0 then 299/1000 else if k = 1 then 587/1000 else 114/1000

/-- Grayscale block of ScreenInversion.cpp (lines 1048-1050): entry `[i][j]`
for `i, j < 3` is set to the weight of channel `i`, so each row is
constant. -/
def grayBlockSI (m : Mat5) : Mat5 := fun i j =>
  if i.val ≤ 2 ∧ j.val ≤ 2 then lumWeight i else m i j

/-- Grayscale block of MagnifierSample.cpp (lines 474-476): entry `[i][j]`
for `i, j < 3` is the weight of channel `j`, so each row is
`(rWeight, gWeight, bWeight)`. -/
def grayBlockMS (m : Mat5) : Mat5 := fun i j =>
  if i.val ≤ 2 ∧ j.val ≤ 2 then lumWeight j else m i j

/-- Inversion (lines 1054-1065): multiply the 3x3 RGB block by -1 and set
the three translation entries `[4][0..2]` to 1. -/
def invertBlock (m : Mat5) : Mat5 := fun i j =>
  if i.val ≤ 2 ∧ j.val ≤ 2 then -(m i j)
  else if i = 4 ∧ j.val ≤ 2 then 1
  else m i j

/-- Scaling (the body of the `if (scale != 1.0f)` block, lines 1073-1084):
multiply the 3x3 RGB block by the scale and, when inversion is enabled,
also the three translation entries. -/
def scaleBlock (inv : Bool) (s : ℚ) (m : Mat5) : Mat5 := fun i j =>
  if i.val ≤ 2 ∧ j.val ≤ 2 then s * m i j
  else if inv ∧ i = 4 ∧ j.val ≤ 2 then s * m i j
  else m i j

/-- `CalculateColorMatrix` given the selected scale and a grayscale block
`g`: identity, grayscale if enabled, inversion if enabled, then the scaling
step guarded by `scale != 1.0f`. -/
def calcBody (g : Mat5 → Mat5) (inv gs : Bool) (s : ℚ) : Mat5 :=
  let m0 := identMat5
  let m1 := if gs then g m0 else m0
  let m2 := if inv then invertBlock m1 else m1
  if s ≠ 1 then scaleBlock inv s m2 else m2

/-- `float grayLevels[] = { 1.0f, 0.8f, 0.6f, 0.4f }` (ScreenInversion.cpp
line 1068). -/
def grayLevelsSI : List ℚ := [1, 4/5, 3/5, 2/5]

/-- `float grayLevels[] = { 1.0f, 0.8f, 0.6f, 0.4f, 0.2f }`
(MagnifierSample.cpp line 494). -/
def grayLevelsMS : List ℚ := [1, 4/5, 3/5, 2/5, 1/5]

/-- `grayLevels[grayLevel]` with an `int` index: `none` models the
out-of-bounds array read when the index escapes the table. -/
def scaleLookup (table : List ℚ) (gl : Int) : Option ℚ :=
  if gl < 0 then none else table.get? gl.toNat

/-- `CalculateColorMatrix` of ScreenInversion.cpp (lines 1029-1086). -/
def CalculateColorMatrixSI (inv gs : Bool) (gl : Int) : Option Mat5 :=
  (scaleLookup grayLevelsSI gl).map (calcBody grayBlockSI inv gs)

/-- `CalculateColorMatrix` of MagnifierSample.cpp (lines 455-512). -/
def CalculateColorMatrixMS (inv gs : Bool) (gl : Int) : Option Mat5 :=
  (scaleLookup grayLevelsMS gl).map (calcBody grayBlockMS inv gs)

/-- The composition stated by the spec: start from identity, grayscale
first if enabled, then if inversion is enabled negate the RGB block and set
the translation entries to 1, then always multiply the RGB block by the
selected scale, multiplying the translation entries exactly when inversion
is enabled (no `scale != 1.0f` shortcut). -/
def composedBody (g : Mat5 → Mat5) (inv gs : Bool) (s : ℚ) : Mat5 :=
  scaleBlock inv s ((if inv then invertBlock else id) ((if gs then g else id) identMat5))

/-- The spec composition with ScreenInversion.cpp's grayscale block and
scale table. -/
def ComposedColorMatrixSI (inv gs : Bool) (gl : Int) : Option Mat5 :=
  (scaleLookup grayLevelsSI gl).map (composedBody grayBlockSI inv gs)

/-- The spec composition with MagnifierSample.cpp's grayscale block and
scale table. -/
def ComposedColorMatrixMS (inv gs : Bool) (gl : Int) : Option Mat5 :=
  (scaleLookup grayLevelsMS gl).map (composedBody grayBlockMS inv gs)

theorem scaleBlock_one (inv : Bool) (m : Mat5) : scaleBlock inv 1 m = m := by
  funext i j
  unfold scaleBlock
  split_ifs <;> simp

theorem calcBody_eq_composedBody (g : Mat5 → Mat5) (inv gs : Bool) (s : ℚ) :
    calcBody g inv gs s = composedBody g inv gs s := by
  by_cases hs : s = 1
  · subst hs
    unfold calcBody composedBody
    rw [if_neg (by simp), scaleBlock_one]
    cases gs <;> cases inv <;> rfl
  · unfold calcBody composedBody
    rw [if_pos hs]
    cases gs <;> cases inv <;> rfl

/-! ## Claims C4, C3, C1 (color matrix) -/

/-- C4: for every settings value `CalculateColorMatrix` equals the
composition: identity, then grayscale if enabled, then inversion negating
the current RGB block (grayscale weights included) and setting the
translation entries to 1, then multiplying the RGB block by the scale
selected by the gray level, with the translation entries multiplied by the
scale exactly when inversion is enabled — in both variants. -/
theorem c4_matrix_composition (inv gs : Bool) (gl : Int) :
    CalculateColorMatrixSI inv gs gl = ComposedColorMatrixSI inv gs gl
    ∧ CalculateColorMatrixMS inv gs gl = ComposedColorMatrixMS inv gs gl := by
  constructor
  · unfold CalculateColorMatrixSI ComposedColorMatrixSI
    rw [show calcBody grayBlockSI inv gs = composedBody grayBlockSI inv gs from
      funext fun s => calcBody_eq_composedBody _ inv gs s]
  · unfold CalculateColorMatrixMS ComposedColorMatrixMS
    rw [show calcBody grayBlockMS inv gs = composedBody grayBlockMS inv gs from
      funext fun s => calcBody_eq_composedBody _ inv gs s]

/-- Entry `[i][j]` of an optionally produced matrix. -/
def matEntry (o : Option Mat5) (i j : Fin 5) : Option ℚ := o.map fun m => m i j

/-- The RGB row/column indices 0-2 inside the 5x5 matrix. -/
def rgb (i : Fin 3) : Fin 5 := Fin.castLE (by decide) i

/-- C3: with grayscale off, inversion off and gray level 0 both variants
produce a matrix whose 3x3 RGB block is the identity and whose R, G, B
translation entries are 0. -/
theorem c3_identity_when_all_off :
    (∀ i j : Fin 3, matEntry (CalculateColorMatrixSI false false 0) (rgb i) (rgb j)
        = some (if i = j then 1 else 0))
    ∧ (∀ j : Fin 3, matEntry (CalculateColorMatrixSI false false 0) 4 (rgb j) = some 0)
    ∧ (∀ i j : Fin 3, matEntry (CalculateColorMatrixMS false false 0) (rgb i) (rgb j)
        = some (if i = j then 1 else 0))
    ∧ (∀ j : Fin 3, matEntry (CalculateColorMatrixMS false false 0) 4 (rgb j) = some 0) := by
  decide

/-- The weight vector (0.299, 0.587, 0.114) named by the claim. -/
def claimWeights : Fin 3 → ℚ :=
  fun i => if i = 0 then 299/1000 else if i = 1 then 587/1000 else 114/1000

/-- C1 counterexample: in the ScreenInversion.cpp variant (the first source
the claim cites), with grayscale on, inversion off, gray level 0, entry
`[0][1]` of the produced matrix is 0.299 — not the 0.587 required for row 0
to be (0.299, 0.587, 0.114). -/
theorem c1_row_weights_counterexample :
    matEntry (CalculateColorMatrixSI false true 0) (rgb 0) (rgb 1) = some (299/1000)
    ∧ ¬(matEntry (CalculateColorMatrixSI false true 0) (rgb 0) (rgb 1)
        = some (claimWeights 1)) := by
  constructor
  · norm_num [matEntry, CalculateColorMatrixSI, scaleLookup, grayLevelsSI, calcBody,
      grayBlockSI, identMat5, lumWeight, rgb, Fin.castLE]
  · norm_num [matEntry, CalculateColorMatrixSI, scaleLookup, grayLevelsSI, calcBody,
      grayBlockSI, identMat5, lumWeight, rgb, Fin.castLE, claimWeights]

/-- C1 (amended): with grayscale on, inversion off, gray level 0, the
MagnifierSample.cpp variant has every RGB row equal to
(0.299, 0.587, 0.114) — entry `[i][j]` is the weight of `j` — while the
ScreenInversion.cpp variant assigns the weights transposed: entry `[i][j]`
is the weight of `i`, so row `i` is constant and the columns carry the
(0.299, 0.587, 0.114) pattern. -/
theorem c1_grayscale_weight_orientation :
    (∀ i j : Fin 3, matEntry (CalculateColorMatrixMS false true 0) (rgb i) (rgb j)
        = some (claimWeights j))
    ∧ (∀ i j : Fin 3, matEntry (CalculateColorMatrixSI false true 0) (rgb i) (rgb j)
        = some (claimWeights i)) := by
  constructor <;> intro i j <;> fin_cases i <;> fin_cases j <;>
    (norm_num [matEntry, CalculateColorMatrixMS, CalculateColorMatrixSI, scaleLookup,
      grayLevelsMS, grayLevelsSI, calcBody, grayBlockMS, grayBlockSI, identMat5,
      lumWeight, rgb, Fin.castLE, claimWeights]) <;>
    rfl

/-! ## Claim C10: the gray level reaching CalculateColorMatrix -/

/-- A `saved_rects.txt` whose slot 1 line carries gray level 7.
`SavedRectanglesManager::ParseLine` would reject it; the
`LoadSavedRectangles` of ScreenInversion.cpp does not range check it. -/
def c10FileLines : List (List Char) := [("1=0,0,200,200,1,0,7").toList]

/-- The `savedRects` global after `LoadSavedRectangles` reads that file. -/
def c10Loaded : SavedRectangles := siLoad initialSavedRectangles c10FileLines

/-- The color globals after the `'1'` key triggers `LoadRectangle(1)`. -/
def c10Colors : ColorState := LoadRectangleColors c10Loaded 1 initialColorState

/-- C10 (refuting evaluation): the file above loads slot 1 as valid with
gray level 7; `LoadRectangle` copies 7 into the global `grayLevel`; the
index is outside `[0, 3]`, and `CalculateColorMatrix`'s read of
`grayLevels[7]` falls outside the 4-entry table (modelled as `none`),
contradicting the claimed invariant and the code's own `// 0-3` comment. -/
theorem c10_gray_level_escapes_table :
    c10Loaded.isValid 1 = true
    ∧ c10Loaded.grayLevelSettings 1 = 7
    ∧ c10Colors.grayLevel = 7
    ∧ ¬(0 ≤ c10Colors.grayLevel ∧ c10Colors.grayLevel ≤ 3)
    ∧ CalculateColorMatrixSI c10Colors.inversionEnabled c10Colors.grayscaleEnabled
        c10Colors.grayLevel = none := by
  decide

/-! ## Claims C6 and C7: rejected lines -/

theorem parseEntryData_short {items : List (List Char)} (h : items.length < 4) :
    parseEntryData items = none := by
  match items with
  | [] => rfl
  | [a] => rfl
  | [a, b] => rfl
  | [a, b, c] => rfl
  | a :: b :: c :: d :: r =>
    simp only [List.length_cons] at h
    omega

theorem parseSlotAndData_short {dataStr : List Char}
    (h : (splitComma dataStr).length < 4) (slotStr : List Char) :
    parseSlotAndData slotStr dataStr = none := by
  unfold parseSlotAndData
  split
  · rfl
  · rw [parseEntryData_short h]

theorem loadStep_of_none {line : List Char} (h : ParseLine line = none)
    (st : Store) : loadStep st line = st := by
  unfold loadStep
  rw [h]

theorem loadLines_middle {line : List Char}
    (h : ∀ st : Store, loadStep st line = st)
    (st : Store) (pre suf : List (List Char)) :
    loadLines st (pre ++ line :: suf) = loadLines st (pre ++ suf) := by
  rw [loadLines_append, loadLines_append]
  show loadLines (loadStep (loadLines st pre) line) suf = loadLines (loadLines st pre) suf
  rw [h]

/-- C6: a line whose data portion (after the `=`) splits into fewer than 4
comma-separated fields is rejected by the rectangle parser — `ParseLine`
returns none and the `Load` loop leaves every slot of the store exactly as
it was — and the `LoadSavedRectangles` loop of ScreenInversion.cpp likewise
leaves its state unchanged. -/
theorem c6_short_data_line_rejected (line : List Char) (sd : List Char × List Char)
    (hsplit : splitEq line = some sd)
    (hlen : (splitComma (trimWS sd.2)).length < 4) :
    ParseLine line = none
    ∧ (∀ st : Store, loadStep st line = st)
    ∧ (∀ st : SavedRectangles, siLoadLine st line = st) := by
  match line with
  | [] => simp [splitEq] at hsplit
  | c :: cs =>
    by_cases hcm : c = '#' ∨ c = ';'
    · have hp : ParseLine (c :: cs) = none := by
        rw [ParseLine, if_pos hcm]
      refine ⟨hp, loadStep_of_none hp, fun st => ?_⟩
      rw [siLoadLine, if_pos hcm]
    · have hp : ParseLine (c :: cs) = none := by
        rw [ParseLine, if_neg hcm, hsplit]
        exact parseSlotAndData_short hlen _
      refine ⟨hp, loadStep_of_none hp, fun st => ?_⟩
      rw [siLoadLine, if_neg hcm, hsplit]
      show (if 0 ≤ atoiI (trimWS sd.1) ∧ atoiI (trimWS sd.1) < 10 then _ else st) = st
      split
      · rcases hit : splitComma (trimWS sd.2) with _ | ⟨a, _ | ⟨b, _ | ⟨c2, _ | ⟨d, r⟩⟩⟩⟩ <;>
          rw [hit] at hlen <;>
          first
            | rfl
            | (simp only [List.length_cons] at hlen; omega)
      · rfl

/-- Witness for C6 on the line `4=1,2` (two data fields). -/
theorem c6_short_data_line_rejected_witness :
    splitEq (("4=1,2").toList) = some (("4").toList, ("1,2").toList)
    ∧ ParseLine (("4=1,2").toList) = none
    ∧ loadStep emptyStore (("4=1,2").toList) = emptyStore
    ∧ siLoadLine initialSavedRectangles (("4=1,2").toList) = initialSavedRectangles := by
  have h := c6_short_data_line_rejected (("4=1,2").toList)
    (("4").toList, ("1,2").toList) (by decide) (by decide)
  exact ⟨by decide, h.1, h.2.1 emptyStore, h.2.2 initialSavedRectangles⟩

/-- The line `x=1,2,3,4`: its slot field does not parse as an integer. -/
def c7BadLine : List Char := ("x=1,2,3,4").toList

/-- C7 counterexample: in ScreenInversion.cpp's `LoadSavedRectangles` the
line `x=1,2,3,4` is not discarded — `atoi("x")` yields 0, which passes the
range check, so slot 0 is overwritten and marked valid; with the line
absent slot 0 would have stayed invalid. -/
theorem c7_atoi_slot_counterexample :
    (siLoadLine initialSavedRectangles c7BadLine).isValid 0 = true
    ∧ initialSavedRectangles.isValid 0 = false
    ∧ (siLoadLine initialSavedRectangles c7BadLine).rects 0 = ⟨1, 2, 3, 4⟩ := by
  decide

/-- C7 (amended): in `SavedRectanglesManager::ParseLine` a line whose
trimmed slot field fails the strict strtol parse (trailing characters
remain) or parses to an integer outside `[0, 10)` is discarded —
`ParseLine` returns none and `Load` yields exactly the store it would yield
with the line absent.  In ScreenInversion.cpp's `LoadSavedRectangles`, only
lines whose `atoi` slot value is outside `[0, 10)` are discarded; a slot
field that does not parse as an integer coerces to `atoi`'s value 0 and can
overwrite slot 0. -/
theorem c7_bad_slot_discarded (line : List Char) (sd : List Char × List Char)
    (hsplit : splitEq line = some sd) :
    (((strtol10 (trimWS sd.1)).2 ≠ [] ∨ (strtol10 (trimWS sd.1)).1 < 0
        ∨ 10 ≤ (strtol10 (trimWS sd.1)).1) →
      ParseLine line = none
      ∧ ∀ (st : Store) (pre suf : List (List Char)),
          loadLines st (pre ++ line :: suf) = loadLines st (pre ++ suf))
    ∧ ((atoiI (trimWS sd.1) < 0 ∨ 10 ≤ atoiI (trimWS sd.1)) →
      ∀ st : SavedRectangles, siLoadLine st line = st) := by
  match line with
  | [] => simp [splitEq] at hsplit
  | c :: cs =>
    by_cases hcm : c = '#' ∨ c = ';'
    · have hp : ParseLine (c :: cs) = none := by
        rw [ParseLine, if_pos hcm]
      refine ⟨fun _ => ⟨hp, loadLines_middle (loadStep_of_none hp)⟩, fun _ st => ?_⟩
      rw [siLoadLine, if_pos hcm]
    · constructor
      · intro hbad
        have hp : ParseLine (c :: cs) = none := by
          rw [ParseLine, if_neg hcm, hsplit]
          show parseSlotAndData (trimWS sd.1) (trimWS sd.2) = none
          unfold parseSlotAndData
          rw [if_pos hbad]
        exact ⟨hp, loadLines_middle (loadStep_of_none hp)⟩
      · intro hbad st
        rw [siLoadLine, if_neg hcm, hsplit]
        show (if 0 ≤ atoiI (trimWS sd.1) ∧ atoiI (trimWS sd.1) < 10 then _ else st) = st
        rw [if_neg (by omega)]

/-- Witness for C7 on the out-of-range line `12=1,2,3,4,1,1,0`: both
loaders discard it. -/
theorem c7_bad_slot_discarded_witness :
    ParseLine (("12=1,2,3,4,1,1,0").toList) = none
    ∧ loadLines emptyStore [("12=1,2,3,4,1,1,0").toList] = loadLines emptyStore []
    ∧ siLoadLine initialSavedRectangles (("12=1,2,3,4,1,1,0").toList)
        = initialSavedRectangles := by
  have h := c7_bad_slot_discarded (("12=1,2,3,4,1,1,0").toList)
    (("12").toList, ("1,2,3,4,1,1,0").toList) (by decide)
  have ha := h.1 (by decide)
  exact ⟨ha.1, ha.2 emptyStore [] [], h.2 (by decide) initialSavedRectangles⟩

/-! ## Shortcut configuration (LoadShortcutConfig, ScreenInversion.cpp) -/

/-- `struct ShortcutConfig`: the five key bindings and the modifier mask,
`UINT` values modelled as `Nat`. -/
structure ShortcutCfg where
  toggleInvertKey : Nat
  toggleGrayscaleKey : Nat
  cycleWhiteLevelKey : Nat
  escapeKey : Nat
  globalHotkeyModifiers : Nat
  globalHotkeyKey : Nat
deriving DecidableEq

/-- The hard-coded defaults (lines 67-72): keys 'I', 'C', 'W', VK_ESCAPE,
MOD_CONTROL|MOD_SHIFT (2|4), 'P'. -/
def defaultShortcuts : ShortcutCfg := ⟨73, 67, 87, 27, 6, 80⟩

/-- Key/value extraction for one line of the config-file loop (lines
515-535): comment/blank skip, `find('=')`, trim both sides. -/
def parseKV (line : List Char) : Option (List Char × List Char) :=
  match line with
  | [] => none
  | c :: cs =>
    if c = '#' ∨ c = ';' then none
    else
      match splitEq (c :: cs) with
      | none => none
      | some (k, v) => some (trimWS k, trimWS v)

/-- `configMap[key] = value` insertion: later lines overwrite earlier
ones. -/
def mapInsert (m : List Char → Option (List Char)) (line : List Char) :
    List Char → Option (List Char) :=
  match parseKV line with
  | none => m
  | some (k, v) => fun q => if q = k then some v else m q

/-- The `std::map<std::string, std::string> configMap` built from the whole
file. -/
def configMapOf (lines : List (List Char)) : List Char → Option (List Char) :=
  lines.foldl mapInsert (fun _ => none)

/-- `value[0]` on a `std::string`; indexing position `size()` of an empty
string reads the terminating null character (C++11). -/
def headD0 : List Char → Char
  | [] => Char.ofNat 0
  | c :: _ => c

/-- Whether `pat` begins at the head of `s`. -/
def startsWithC : List Char → List Char → Bool
  | [], _ => true
  | _ :: _, [] => false
  | a :: as, b :: bs => a == b && startsWithC as bs

/-- `s.find(pat) != std::string::npos`: `pat` occurs at some position of
`s`. -/
def hasSubstr : List Char → List Char → Bool
  | [], pat => startsWithC pat []
  | c :: r, pat => startsWithC pat (c :: r) || hasSubstr r pat

/-- Line 538-539: `ToggleInvertKey`, when present in the map, overrides the
invert-toggle key with its value's first character. -/
def applyInvertKey (m : List Char → Option (List Char)) (cfg : ShortcutCfg) : ShortcutCfg :=
  match m (("ToggleInvertKey").toList) with
  | some v => { cfg with toggleInvertKey := (headD0 v).toNat }
  | none => cfg

/-- Lines 541-542: the `ToggleGrayscaleKey` override. -/
def applyGrayscaleKey (m : List Char → Option (List Char)) (cfg : ShortcutCfg) : ShortcutCfg :=
  match m (("ToggleGrayscaleKey").toList) with
  | some v => { cfg with toggleGrayscaleKey := (headD0 v).toNat }
  | none => cfg

/-- Lines 544-545: the `CycleWhiteLevelKey` override. -/
def applyCycleKey (m : List Char → Option (List Char)) (cfg : ShortcutCfg) : ShortcutCfg :=
  match m (("CycleWhiteLevelKey").toList) with
  | some v => { cfg with cycleWhiteLevelKey := (headD0 v).toNat }
  | none => cfg

/-- Lines 547-548: the `GlobalHotkeyKey` override. -/
def applyHotkeyKey (m : List Char → Option (List Char)) (cfg : ShortcutCfg) : ShortcutCfg :=
  match m (("GlobalHotkeyKey").toList) with
  | some v => { cfg with globalHotkeyKey := (headD0 v).toNat }
  | none => cfg

/-- Lines 551-564: the `GlobalHotkeyModifiers` override — MOD_CONTROL (2),
MOD_SHIFT (4), MOD_ALT (1), MOD_WIN (8) for each substring found, combined
by bitwise-or (the bits are distinct, so the sum below is that or). -/
def applyModifiers (m : List Char → Option (List Char)) (cfg : ShortcutCfg) : ShortcutCfg :=
  match m (("GlobalHotkeyModifiers").toList) with
  | some v =>
      { cfg with globalHotkeyModifiers :=
          (if hasSubstr v (("CTRL").toList) then 2 else 0)
          + (if hasSubstr v (("SHIFT").toList) then 4 else 0)
          + (if hasSubstr v (("ALT").toList) then 1 else 0)
          + (if hasSubstr v (("WIN").toList) then 8 else 0) }
  | none => cfg

/-- `LoadShortcutConfig` (lines 500-567) on the lines of an opened
`shortcuts.txt`: build the map, then apply the five recognized keys over
the defaults in source order. -/
def LoadShortcutConfig (lines : List (List Char)) : ShortcutCfg :=
  applyModifiers (configMapOf lines)
    (applyHotkeyKey (configMapOf lines)
      (applyCycleKey (configMapOf lines)
        (applyGrayscaleKey (configMapOf lines)
          (applyInvertKey (configMapOf lines) defaultShortcuts))))

/-- The configurable-shortcut branch of `HostWndProc`'s WM_KEYDOWN handler
(lines 704-722), reached when `selectionState == SELECTION_COMPLETE` and
the key is none of the earlier-dispatched escape and digit keys: the three
color toggles.  The gray-level `%` is C truncated division, which agrees
with `Int.emod` on the nonnegative values that occur here. -/
def handleShortcutKey (cfg : ShortcutCfg) (cs : ColorState) (key : Nat) : ColorState :=
  if key = cfg.toggleInvertKey then
    { cs with inversionEnabled := !cs.inversionEnabled }
  else if key = cfg.toggleGrayscaleKey then
    { cs with grayscaleEnabled := !cs.grayscaleEnabled }
  else if key = cfg.cycleWhiteLevelKey then
    { cs with grayLevel := (cs.grayLevel + 1) % 4 }
  else cs

/-! ## Claim C8: the ToggleInvertKey binding -/

/-- A config file with two ToggleInvertKey lines, X first, Y second. -/
def c8DuplicateLines : List (List Char) :=
  [("ToggleInvertKey=X").toList, ("ToggleInvertKey=Y").toList]

/-- C8 counterexample: this file contains the line `ToggleInvertKey=X`,
yet after `LoadShortcutConfig` the invert-toggle key is 'Y' (89), not 'X'
(88): `configMap[key] = value` keeps the last binding, so containing such a
line does not determine the key. -/
theorem c8_duplicate_binding_counterexample :
    ("ToggleInvertKey=X").toList ∈ c8DuplicateLines
    ∧ (LoadShortcutConfig c8DuplicateLines).toggleInvertKey = 89
    ∧ (LoadShortcutConfig c8DuplicateLines).toggleInvertKey ≠ 88 := by
  decide

/-- C8 (amended): the configured invert-toggle key equals the first
character of the value of the last `ToggleInvertKey` line (so a unique such
line `ToggleInvertKey=X` gives 'X'), and is the default 'I' (73) when no
such line exists; no other (unknown) key of the map can affect it.  With
selection complete, pressing the configured invert-toggle key flips
`inversionEnabled`. -/
theorem c8_invert_key_binding :
    (∀ lines : List (List Char),
      (LoadShortcutConfig lines).toggleInvertKey =
        match configMapOf lines (("ToggleInvertKey").toList) with
        | none => 73
        | some v => (headD0 v).toNat)
    ∧ (∀ (cfg : ShortcutCfg) (cs : ColorState),
        (handleShortcutKey cfg cs cfg.toggleInvertKey).inversionEnabled
          = !cs.inversionEnabled) := by
  have hgray : ∀ m cfg, (applyGrayscaleKey m cfg).toggleInvertKey = cfg.toggleInvertKey := by
    intro m cfg
    unfold applyGrayscaleKey
    cases m (("ToggleGrayscaleKey").toList) <;> rfl
  have hcyc : ∀ m cfg, (applyCycleKey m cfg).toggleInvertKey = cfg.toggleInvertKey := by
    intro m cfg
    unfold applyCycleKey
    cases m (("CycleWhiteLevelKey").toList) <;> rfl
  have hhot : ∀ m cfg, (applyHotkeyKey m cfg).toggleInvertKey = cfg.toggleInvertKey := by
    intro m cfg
    unfold applyHotkeyKey
    cases m (("GlobalHotkeyKey").toList) <;> rfl
  have hmod : ∀ m cfg, (applyModifiers m cfg).toggleInvertKey = cfg.toggleInvertKey := by
    intro m cfg
    unfold applyModifiers
    cases m (("GlobalHotkeyModifiers").toList) <;> rfl
  constructor
  · intro lines
    unfold LoadShortcutConfig
    rw [hmod, hhot, hcyc, hgray]
    unfold applyInvertKey
    cases configMapOf lines (("ToggleInvertKey").toList) <;> rfl
  · intro cfg cs
    unfold handleShortcutKey
    rw [if_pos rfl]

/-! ## Claim C9: selection rectangle minimum size -/

/-- A screen click point (`POINT`). -/
structure PointI where
  x : Int
  y : Int

/-- The `SELECTION_FIRST_POINT` branch of `HandleRectangleSelection`
(ScreenInversion.cpp lines 941-950; identical in MagnifierSample.cpp lines
350-359): the rectangle spanned by the two click points, then the 100-pixel
minimum-size clamps on width and height. -/
def selectedRectOfClicks (p1 p2 : PointI) : RectI :=
  let r0 : RectI := ⟨min p1.x p2.x, min p1.y p2.y, max p1.x p2.x, max p1.y p2.y⟩
  let r1 := if r0.right - r0.left < 100 then { r0 with right := r0.left + 100 } else r0
  if r1.bottom - r1.top < 100 then { r1 with bottom := r1.top + 100 } else r1

/-- C9: for every pair of click points, in either order and position, the
selected rectangle has width and height at least 100 — hence
`right ≥ left` and `bottom ≥ top`. -/
theorem c9_selection_min_size (p1 p2 : PointI) :
    100 ≤ (selectedRectOfClicks p1 p2).right - (selectedRectOfClicks p1 p2).left
    ∧ 100 ≤ (selectedRectOfClicks p1 p2).bottom - (selectedRectOfClicks p1 p2).top
    ∧ (selectedRectOfClicks p1 p2).left ≤ (selectedRectOfClicks p1 p2).right
    ∧ (selectedRectOfClicks p1 p2).top ≤ (selectedRectOfClicks p1 p2).bottom := by
  have hx : min p1.x p2.x ≤ max p1.x p2.x := min_le_max
  have hy : min p1.y p2.y ≤ max p1.y p2.y := min_le_max
  simp only [selectedRectOfClicks]
  split_ifs with h1 h2 h2 <;> (try dsimp at *) <;> omega
